import Mathlib

/-!
Shallow embedding of the SORA-Offline repository's functional core:
identifier extraction, index normalization, filename sanitization,
the archive directory scan and the reconciliation layer
(src/assets/js/data.js, src/assets/js/harvest.js, the fsScanner module
and the Sora Auto Saver userscript), together with theorems settling
the spec claims about them.

JavaScript strings are modelled as lists of characters.  Browser
platform primitives (String.prototype.normalize, JSON.parse of file
contents) are modelled as explicit parameters, so every theorem about
code calling them is proved for all possible behaviours of the
primitive.
-/

namespace SoraOffline

/-- JavaScript string: a list of (unicode) characters. -/
abbrev JStr := List Char

/-- Character class of the regex atom [a-z0-9] under the /i flag:
ASCII letters of either case and ASCII digits. -/
def isAl (c : Char) : Bool :=
  (decide ('a' ≤ c) && decide (c ≤ 'z')) ||
  (decide ('A' ≤ c) && decide (c ≤ 'Z')) ||
  (decide ('0' ≤ c) && decide (c ≤ '9'))

/-- Attempt of the regex /gen_[a-z0-9]+/i at the start of the string:
the literal prefix gen_ matched case-insensitively (the underscore
exactly), then a greedy run of one or more [a-z0-9] characters. -/
def matchGenAt : JStr → Option JStr
  | g :: e :: n :: u :: rest =>
    if (g = 'g' ∨ g = 'G') ∧ (e = 'e' ∨ e = 'E') ∧ (n = 'n' ∨ n = 'N') ∧ u = '_' then
      let ds := rest.takeWhile isAl
      if ds.isEmpty then none else some (g :: e :: n :: u :: ds)
    else none
  | _ => none

/-- Leftmost match of /gen_[a-z0-9]+/i: try each start position from the
left, first success wins (String.prototype.match with a non-global regex). -/
def findGenId : JStr → Option JStr
  | [] => none
  | c :: rest =>
    match matchGenAt (c :: rest) with
    | some m => some m
    | none => findGenId rest

/-- data.js extractGenId: null for a falsy (empty) or non-string value,
otherwise the leftmost /gen_[a-z0-9]+/i match or null. -/
def extractGenId (value : JStr) : Option JStr :=
  if value.isEmpty then none else findGenId value

/-- data.js buildPageUrl: canonical page URL for a generation id. -/
def buildPageUrl (id : JStr) : JStr :=
  ("https://sora.chatgpt.com/g/").toList ++ id

/-- The declarative generation-id pattern, stated independently of the
matcher: the case-insensitive literal prefix gen_ followed by one or
more alphanumeric characters making up the whole string. -/
def genPat (m : JStr) : Prop :=
  ∃ g e n ds, m = g :: e :: n :: '_' :: ds ∧
    (g = 'g' ∨ g = 'G') ∧ (e = 'e' ∨ e = 'E') ∧ (n = 'n' ∨ n = 'N') ∧
    ds ≠ [] ∧ ∀ c ∈ ds, isAl c = true

/-- Boolean (decidable) form of the generation-id pattern. -/
def genPatB : JStr → Bool
  | g :: e :: n :: u :: ds =>
    (decide (g = 'g') || decide (g = 'G')) && (decide (e = 'e') || decide (e = 'E')) &&
    (decide (n = 'n') || decide (n = 'N')) && decide (u = '_') &&
    (!ds.isEmpty) && ds.all isAl
  | _ => false

/-- JavaScript whitespace characters relevant here (space, tab, line
feed, carriage return, vertical tab, form feed, no-break space):
the class trimmed by String.prototype.trim and matched by the regex
atom for whitespace. -/
def isWS (c : Char) : Bool :=
  decide (c = ' ') || decide (c = Char.ofNat 0x09) || decide (c = Char.ofNat 0x0A) ||
  decide (c = Char.ofNat 0x0D) || decide (c = Char.ofNat 0x0B) ||
  decide (c = Char.ofNat 0x0C) || decide (c = Char.ofNat 0xA0)

/-- String.prototype.trim: drop whitespace from both ends. -/
def jsTrim (l : JStr) : JStr :=
  ((l.dropWhile isWS).reverse.dropWhile isWS).reverse

/-- JSON values (the shapes a parsed index file or sidecar can take).
Numbers are modelled as integers; none of the verified code inspects
numeric values beyond type tests. -/
inductive Json where
  | null
  | bool (b : Bool)
  | num (n : Int)
  | str (s : JStr)
  | arr (elems : List Json)
  | obj (fields : List (JStr × Json))

/-- Property lookup on a JavaScript object (first binding wins, as JS
object keys are unique). -/
def jget (fields : List (JStr × Json)) (key : JStr) : Option Json :=
  (fields.find? (fun p => p.fst == key)).map Prod.snd

/-- The test `typeof obj[key] === 'string' && obj[key]` used by the
finders in data.js: the property is a truthy (nonempty) string. -/
def strField (fields : List (JStr × Json)) (key : JStr) : Option JStr :=
  match jget fields key with
  | some (Json.str s) => if s.isEmpty then none else some s
  | _ => none

/-- data.js THUMB_KEYS. -/
def THUMB_KEYS : List JStr :=
  (["thumb", "thumbnail", "image", "img", "src", "preview", "poster"]).map String.toList

/-- data.js URL_KEYS. -/
def URL_KEYS : List JStr :=
  (["href", "url", "pageUrl", "link"]).map String.toList

/-- data.js PROMPT_KEYS. -/
def PROMPT_KEYS : List JStr :=
  (["prompt", "caption", "description", "text"]).map String.toList

/-- data.js findThumb: first THUMB_KEYS member whose value is a
nonempty string. -/
def findThumb (fields : List (JStr × Json)) : Option JStr :=
  THUMB_KEYS.findSome? (fun k => strField fields k)

/-- data.js findPageUrl: first URL_KEYS member whose value is a
nonempty string. -/
def findPageUrl (fields : List (JStr × Json)) : Option JStr :=
  URL_KEYS.findSome? (fun k => strField fields k)

/-- data.js findPrompt: first PROMPT_KEYS member whose value is a
string with nonempty trim; the trimmed value is returned. -/
def findPrompt (fields : List (JStr × Json)) : Option JStr :=
  PROMPT_KEYS.findSome? (fun k =>
    match jget fields k with
    | some (Json.str v) => if (jsTrim v).isEmpty then none else some (jsTrim v)
    | _ => none)

/-- Lowercase hex digit of a value below 16 (JSON escape sequences). -/
def hexDig (n : Nat) : Char :=
  if n < 10 then Char.ofNat ('0'.toNat + n) else Char.ofNat ('a'.toNat + n - 10)

/-- JSON.stringify escaping of one character inside a string literal. -/
def escChar (c : Char) : JStr :=
  if c = Char.ofNat 0x22 then [Char.ofNat 0x5C, Char.ofNat 0x22]
  else if c = Char.ofNat 0x5C then [Char.ofNat 0x5C, Char.ofNat 0x5C]
  else if c = Char.ofNat 0x08 then [Char.ofNat 0x5C, 'b']
  else if c = Char.ofNat 0x09 then [Char.ofNat 0x5C, 't']
  else if c = Char.ofNat 0x0A then [Char.ofNat 0x5C, 'n']
  else if c = Char.ofNat 0x0C then [Char.ofNat 0x5C, 'f']
  else if c = Char.ofNat 0x0D then [Char.ofNat 0x5C, 'r']
  else if c.toNat < 0x20 then
    [Char.ofNat 0x5C, 'u', '0', '0', hexDig (c.toNat / 16), hexDig (c.toNat % 16)]
  else [c]

/-- A JSON string literal: quotes around the escaped characters. -/
def quoteStr (s : JStr) : JStr :=
  Char.ofNat 0x22 :: (s.flatMap escChar) ++ [Char.ofNat 0x22]

mutual

/-- JSON.stringify on the modelled JSON values. -/
def stringify : Json → JStr
  | Json.null => ("null").toList
  | Json.bool true => ("true").toList
  | Json.bool false => ("false").toList
  | Json.num n => (toString n).toList
  | Json.str s => quoteStr s
  | Json.arr xs => '[' :: stringifyArr xs ++ [']']
  | Json.obj fs => Char.ofNat 0x7B :: stringifyObj fs ++ [Char.ofNat 0x7D]

/-- Comma-separated serialization of array elements. -/
def stringifyArr : List Json → JStr
  | [] => []
  | [x] => stringify x
  | x :: y :: rest => stringify x ++ ',' :: stringifyArr (y :: rest)

/-- Comma-separated serialization of object members in insertion order. -/
def stringifyObj : List (JStr × Json) → JStr
  | [] => []
  | [(k, v)] => quoteStr k ++ ':' :: stringify v
  | (k, v) :: p :: rest => quoteStr k ++ ':' :: stringify v ++ ',' :: stringifyObj (p :: rest)

end

/-- Normalized index record (the internal shape built by
normalizeIndexEntry in data.js). -/
structure IndexRecord where
  id : JStr
  pageUrl : JStr
  thumbUrl : Option JStr
  prompt : Option JStr
  original : Json

/-- String.prototype.startsWith with the literal http. -/
def startsWithHttp (s : JStr) : Bool :=
  (("http").toList).isPrefixOf s

/-- Object branch of normalizeIndexEntry (also reached by arrays, whose
property lookups all miss): derive the id from the explicit id field
(pattern match inside it preferred, else the verbatim field), else from
the serialized form; resolve pageUrl, thumbUrl and prompt. -/
def normalizeObjectEntry (entry : Json) (fields : List (JStr × Json)) : Option IndexRecord :=
  let idFromField : Option JStr :=
    match strField fields (("id").toList) with
    | some s => some ((extractGenId s).getD s)
    | none => none
  let idResolved : Option JStr :=
    match idFromField with
    | some s => some s
    | none => extractGenId (stringify entry)
  match idResolved with
  | none => none
  | some id =>
    let pageUrl0 := (findPageUrl fields).getD (buildPageUrl id)
    let pageUrl := if (extractGenId pageUrl0).isSome then pageUrl0 else buildPageUrl id
    some ⟨id, pageUrl, findThumb fields, findPrompt fields, entry⟩

/-- data.js normalizeIndexEntry: null and non-string non-object values
normalize to nothing; strings must contain a generation id; objects go
through the object branch. -/
def normalizeIndexEntry (entry : Json) : Option IndexRecord :=
  match entry with
  | Json.null => none
  | Json.bool _ => none
  | Json.num _ => none
  | Json.str s =>
    match extractGenId s with
    | none => none
    | some id =>
      some ⟨id, buildPageUrl id, if startsWithHttp s then some s else none, none, Json.str s⟩
  | Json.arr xs => normalizeObjectEntry (Json.arr xs) []
  | Json.obj fs => normalizeObjectEntry (Json.obj fs) fs

/-- Result of normalizing a raw index: the records kept and the count
of entries dropped. -/
structure NormalizedIndex where
  items : List IndexRecord
  skipped : Nat

/-- One iteration of the normalization loop: a successful entry is
pushed, a failed one bumps the skipped counter. -/
def normStep (acc : NormalizedIndex) (e : Json) : NormalizedIndex :=
  match normalizeIndexEntry e with
  | some r => ⟨acc.items ++ [r], acc.skipped⟩
  | none => ⟨acc.items, acc.skipped + 1⟩

/-- The normalization loop of normalizeIndexData: entries normalized
independently, failures counted as skipped and never thrown. -/
def normalizeList (xs : List Json) : NormalizedIndex :=
  xs.foldl normStep ⟨[], 0⟩

/-- data.js normalizeIndexData: a top-level array, or an object whose
items field is an array, is accepted; any other shape throws a format
error (modelled as Except.error with the message text). -/
def normalizeIndexData (raw : Json) : Except JStr NormalizedIndex :=
  match raw with
  | Json.arr xs => Except.ok (normalizeList xs)
  | Json.obj fs =>
    match jget fs (("items").toList) with
    | some (Json.arr xs) => Except.ok (normalizeList xs)
    | _ => Except.error (("Unsupported index format. Expected an array or items structure.").toList)
  | _ => Except.error (("Unsupported index format. Expected an array or items structure.").toList)

/-- Combining diacritical marks U+0300 - U+036F, stripped by the
sanitizer after NFKD decomposition. -/
def isCombining (c : Char) : Bool :=
  decide (0x300 ≤ c.toNat) && decide (c.toNat ≤ 0x36F)

/-- Allow-list of the sanitizer replacement regex [a-z0-9-_. ] under
the /i flag: ASCII letters, digits, hyphen, underscore, dot, space. -/
def sanAllowed (c : Char) : Bool :=
  isAl c || decide (c = '-') || decide (c = '_') || decide (c = '.') || decide (c = ' ')

/-- Replacement of each maximal run of disallowed characters by a
single space (the regex replace with the plus quantifier); the flag
records whether the previous character was part of such a run. -/
def replaceDisallowedAux : Bool → JStr → JStr
  | _, [] => []
  | inRun, c :: rest =>
    if sanAllowed c then c :: replaceDisallowedAux false rest
    else if inRun then replaceDisallowedAux true rest
    else ' ' :: replaceDisallowedAux true rest

/-- Entry point of the disallowed-run replacement. -/
def replaceDisallowed (l : JStr) : JStr := replaceDisallowedAux false l

/-- Replacement of each maximal whitespace run by a single underscore
(the whitespace-class regex replace with the plus quantifier). -/
def collapseWSAux : Bool → JStr → JStr
  | _, [] => []
  | inRun, c :: rest =>
    if isWS c then
      if inRun then collapseWSAux true rest else '_' :: collapseWSAux true rest
    else c :: collapseWSAux false rest

/-- Entry point of the whitespace collapse. -/
def collapseWS (l : JStr) : JStr := collapseWSAux false l

/-- data.js sanitizeForFilename.  String.prototype.normalize with the
NFKD form is a platform primitive and is passed in as a parameter; the
remaining pipeline is: strip combining marks, replace disallowed runs
with spaces, trim, collapse whitespace runs to underscores, slice to
64 characters. -/
def sanitizeForFilename (nfkd : JStr → JStr) (value : JStr) : JStr :=
  (collapseWS (jsTrim (replaceDisallowed ((nfkd value).filter (fun c => !isCombining c))))).take 64

/-- The userscript variant of sanitizeForFilename, which first returns
the empty string for a falsy input. -/
def sanitizeForFilenameUS (nfkd : JStr → JStr) (value : JStr) : JStr :=
  if value.isEmpty then [] else sanitizeForFilename nfkd value

/-- Fields of a JSON object; property access on any other value finds
nothing (undefined). -/
def objFields : Json → List (JStr × Json)
  | Json.obj fs => fs
  | _ => []

/-- JavaScript truthiness of a JSON value. -/
def truthy : Json → Bool
  | Json.null => false
  | Json.bool b => b
  | Json.num n => decide (n ≠ 0)
  | Json.str s => !s.isEmpty
  | Json.arr _ => true
  | Json.obj _ => true

/-- First guard of resolvePrompt: a truthy sidecar metadata value with
a Prompt property that is a string of nonempty trim yields that trim. -/
def sidecarPrompt (meta : Option Json) : Option JStr :=
  match meta with
  | some m =>
    if truthy m then
      match jget (objFields m) (("Prompt").toList) with
      | some (Json.str p) => if (jsTrim p).isEmpty then none else some (jsTrim p)
      | _ => none
    else none
  | none => none

/-- Second guard of resolvePrompt: the record's own prompt field when
it is a string of nonempty trim. -/
def recordPrompt (entry : Option IndexRecord) : Option JStr :=
  match entry with
  | some e =>
    match e.prompt with
    | some p => if (jsTrim p).isEmpty then none else some (jsTrim p)
    | none => none
  | none => none

/-- Final fallback of resolvePrompt: a prompt string nested in the
original raw payload, trimmed even when blank, else the empty string. -/
def originalPrompt (entry : Option IndexRecord) : JStr :=
  match entry with
  | some e =>
    if truthy e.original then
      match jget (objFields e.original) (("prompt").toList) with
      | some (Json.str p) => jsTrim p
      | _ => []
    else []
  | none => []

/-- data.js resolvePrompt: the three early-return guards in sequence,
sidecar Prompt first, then the record's own prompt field, then the
prompt nested in the original raw payload, else the empty string. -/
def resolvePrompt (entry : Option IndexRecord) (meta : Option Json) : JStr :=
  match sidecarPrompt meta with
  | some p => p
  | none =>
    match recordPrompt entry with
    | some p => p
    | none => originalPrompt entry

/-- One file seen by the archive walk: its name and the outcome of
reading and JSON-parsing its contents (a platform effect, carried as
data: a parsed value or the failure message). -/
structure ScanFile where
  name : JStr
  content : Except JStr Json

/-- fsScanner IMAGE_EXTENSIONS. -/
def IMAGE_EXTENSIONS : List JStr :=
  (["png", "jpg", "jpeg", "gif", "webp"]).map String.toList

/-- fsScanner VIDEO_EXTENSIONS. -/
def VIDEO_EXTENSIONS : List JStr :=
  (["mp4", "webm", "mov", "m4v"]).map String.toList

/-- fsScanner MEDIA_EXTENSIONS. -/
def MEDIA_EXTENSIONS : List JStr := IMAGE_EXTENSIONS ++ VIDEO_EXTENSIONS

/-- Lowercasing of a string, character by character. -/
def toLowerStr (l : JStr) : JStr := l.map Char.toLower

/-- name.split with a dot then pop: the segment after the last dot,
or the whole name when it has no dot. -/
def afterLastDot (name : JStr) : JStr :=
  (name.reverse.takeWhile (fun c => !(c == '.'))).reverse

/-- fsScanner isMediaFile: the lowercased final extension is in the
media extension set. -/
def isMediaFile (name : JStr) : Bool :=
  MEDIA_EXTENSIONS.contains (toLowerStr (afterLastDot name))

/-- fsScanner isMetaFile: the name ends in .meta.json, matched
case-insensitively. -/
def isMetaFile (name : JStr) : Bool :=
  ((".meta.json").toList).isSuffixOf (toLowerStr name)

/-- The sidecar-suffix strip used when retrying id extraction. -/
def stripMetaSuffix (name : JStr) : JStr :=
  if isMetaFile name then name.take (name.length - 10) else name

/-- fsScanner extractIdFromName: extract a generation id from the file
name, retrying after stripping the sidecar suffix. -/
def extractIdFromName (name : JStr) : Option JStr :=
  if name.isEmpty then none
  else
    match extractGenId name with
    | some id => some id
    | none => extractGenId (stripMetaSuffix name)

/-- Per-id aggregate built by the scan: media file names in traversal
order, the last successfully parsed sidecar, and the pending parse
failure message. -/
structure ArchiveEntry where
  files : List JStr
  meta : Option Json
  metaError : Option JStr

/-- Result of one archive scan. -/
structure ScanResult where
  byId : List (JStr × ArchiveEntry)
  mediaCount : Nat
  metaCount : Nat
  errors : List JStr

/-- Map lookup on the scan's byId association list. -/
def lookupEntry (byId : List (JStr × ArchiveEntry)) (id : JStr) : Option ArchiveEntry :=
  (byId.find? (fun p => p.fst == id)).map Prod.snd

/-- ensureEntry followed by a mutation: update the entry in place when
the id is present, otherwise append a freshly created entry and mutate
it. -/
def updateEntry (byId : List (JStr × ArchiveEntry)) (id : JStr)
    (g : ArchiveEntry → ArchiveEntry) : List (JStr × ArchiveEntry) :=
  match byId with
  | [] => [(id, g ⟨[], none, none⟩)]
  | (k, v) :: rest =>
    if k == id then (k, g v) :: rest else (k, v) :: updateEntry rest id g

/-- The wrapped message produced by readMetaFile on failure. -/
def readErrMsg (name inner : JStr) : JStr :=
  ("Failed to read ").toList ++ name ++ (": ").toList ++ inner

/-- Processing of a single walked file by scanArchiveDirectory: files
with no id are ignored; sidecars are parsed into meta (success clears
the error, failure records the wrapped message and appends it to the
flat error list); media files are appended to the id's file list. -/
def processFile (st : ScanResult) (f : ScanFile) : ScanResult :=
  match extractIdFromName f.name with
  | none => st
  | some id =>
    if isMetaFile f.name then
      match f.content with
      | Except.ok meta =>
        ⟨updateEntry st.byId id (fun e => ⟨e.files, some meta, none⟩),
          st.mediaCount, st.metaCount + 1, st.errors⟩
      | Except.error inner =>
        let m := readErrMsg f.name inner
        ⟨updateEntry st.byId id (fun e => ⟨e.files, e.meta, some m⟩),
          st.mediaCount, st.metaCount, st.errors ++ [m]⟩
    else if isMediaFile f.name then
      ⟨updateEntry st.byId id (fun e => ⟨e.files ++ [f.name], e.meta, e.metaError⟩),
        st.mediaCount + 1, st.metaCount, st.errors⟩
    else st

/-- fsScanner scanArchiveDirectory over the linearized traversal order
of the directory walk. -/
def scanArchiveDirectory (fs : List ScanFile) : ScanResult :=
  fs.foldl processFile ⟨[], 0, 0, []⟩

/-- The missing test of harvest.js openMissing and renderHarvestList:
no archive entry for the id, or an entry with an empty file list. -/
def isMissing (res : ScanResult) (r : IndexRecord) : Bool :=
  match lookupEntry res.byId r.id with
  | none => true
  | some e => e.files.isEmpty

/-- harvest.js openMissing: the records of the index kept for bulk
opening. -/
def missingItems (idx : List IndexRecord) (res : ScanResult) : List IndexRecord :=
  idx.filter (fun r => isMissing res r)

/-- The offline-status test of formatStats and createBadge: an archive
entry exists for the id and has at least one media file. -/
def offlineStatus (res : ScanResult) (r : IndexRecord) : Bool :=
  match lookupEntry res.byId r.id with
  | none => false
  | some e => !e.files.isEmpty

/-- Userscript getGenerationId: leftmost /gen_[a-z0-9]+/i match in the
location pathname. -/
def getGenerationId (pathname : JStr) : Option JStr :=
  findGenId pathname

/-- The artifact names computed by runDownloadFlow: the id extracted
from the page URL, the sanitized prompt with the asset fallback, then
the media name from a gen_ literal, the id, a double hyphen, the
sanitized prompt and the extension, and the sidecar name from the same
gen_ literal and id.  The extension (determineExtension needs the URL
parser) and the NFKD primitive are platform inputs passed as
parameters; a missing id throws, modelled as none. -/
def downloadNames (nfkd : JStr → JStr) (pathname promptText ext : JStr) :
    Option (JStr × JStr) :=
  match getGenerationId pathname with
  | none => none
  | some id =>
    let sanitized := sanitizeForFilenameUS nfkd promptText
    let sanitizedPrompt := if sanitized.isEmpty then ("asset").toList else sanitized
    let baseName := ("gen_").toList ++ id ++ ("--").toList ++ sanitizedPrompt
    some (baseName ++ '.' :: ext, ("gen_").toList ++ id ++ ((".meta.json").toList))

/-- The empty aggregate created by ensureEntry for a new id. -/
def emptyEntry : ArchiveEntry := ⟨[], none, none⟩

/-- The file list recorded for an id (empty when the id has no entry,
matching the treatment of an absent entry by all consumers). -/
def entryFiles (res : ScanResult) (id : JStr) : List JStr :=
  ((lookupEntry res.byId id).getD emptyEntry).files

/-- The parsed sidecar recorded for an id. -/
def entryMeta (res : ScanResult) (id : JStr) : Option Json :=
  ((lookupEntry res.byId id).getD emptyEntry).meta

/-- The pending sidecar failure message recorded for an id. -/
def entryMetaError (res : ScanResult) (id : JStr) : Option JStr :=
  ((lookupEntry res.byId id).getD emptyEntry).metaError

/-- Whether a walked file is a metadata sidecar attributed to the
given id. -/
def isSidecarFor (id : JStr) (f : ScanFile) : Bool :=
  decide (extractIdFromName f.name = some id) && isMetaFile f.name

/-- Whether a walked file is a media file attributed to the given id
(sidecars are claimed by the sidecar branch first). -/
def isMediaFor (id : JStr) (f : ScanFile) : Bool :=
  decide (extractIdFromName f.name = some id) && !isMetaFile f.name && isMediaFile f.name

/-- Declarative description of an id's file list: the names of its
media files in traversal order. -/
def mediaNamesFor (id : JStr) (fs : List ScanFile) : List JStr :=
  (fs.filter (isMediaFor id)).map ScanFile.name

/-- Declarative description of an id's meta field: the value of the
most recent successfully parsed sidecar for the id, if any. -/
def lastOkParse (id : JStr) : List ScanFile → Option Json
  | [] => none
  | f :: rest =>
    match lastOkParse id rest with
    | some j => some j
    | none =>
      if isSidecarFor id f then
        match f.content with
        | Except.ok j => some j
        | Except.error _ => none
      else none

/-- The most recent sidecar attributed to the id, if any. -/
def lastSidecar (id : JStr) : List ScanFile → Option ScanFile
  | [] => none
  | f :: rest =>
    match lastSidecar id rest with
    | some g => some g
    | none => if isSidecarFor id f then some f else none

/-- The metaError contribution of one sidecar: nothing on parse
success, the wrapped failure message on parse failure. -/
def sidecarErr (f : ScanFile) : Option JStr :=
  match f.content with
  | Except.ok _ => none
  | Except.error inner => some (readErrMsg f.name inner)

/-- Declarative description of the flat error list: the wrapped
messages of the failing sidecars, in traversal order. -/
def errorsSpec (fs : List ScanFile) : List JStr :=
  fs.filterMap (fun f =>
    if (extractIdFromName f.name).isSome && isMetaFile f.name then sidecarErr f else none)

/-- Counterexample entry for the id-shape claim: an object whose
explicit id field contains no generation-id pattern. -/
def entryFoo : Json := Json.obj [((("id").toList), Json.str (("foo").toList))]

/-- Counterexample entry for the pageUrl claim: the URL-ish field
carries a generation id different from the computed one. -/
def entryHrefOther : Json :=
  Json.obj [((("id").toList), Json.str (("gen_aaa").toList)),
    ((("href").toList), Json.str (("https://x/gen_bbb").toList))]

/-- Every character emitted by the disallowed-run replacement is in the
sanitizer allow-list: kept characters pass the test and replaced runs
become single spaces. -/
theorem mem_replaceDisallowedAux {c : Char} :
    ∀ (b : Bool) (l : JStr), c ∈ replaceDisallowedAux b l → sanAllowed c = true := by
  intro b l
  induction l generalizing b with
  | nil => intro h; simp [replaceDisallowedAux] at h
  | cons x rest ih =>
    intro h
    by_cases hx : sanAllowed x = true
    · simp only [replaceDisallowedAux, hx, if_true] at h
      rcases List.mem_cons.mp h with rfl | h2
      · exact hx
      · exact ih false h2
    · simp only [replaceDisallowedAux, hx, if_false] at h
      cases b with
      | true =>
        simp only [if_true] at h
        exact ih true h
      | false =>
        simp only [Bool.false_eq_true, if_false] at h
        rcases List.mem_cons.mp h with rfl | h2
        · decide
        · exact ih true h2

/-- Every character emitted by the whitespace collapse is either the
underscore or an input character that is not whitespace. -/
theorem mem_collapseWSAux {c : Char} :
    ∀ (b : Bool) (l : JStr), c ∈ collapseWSAux b l → c = '_' ∨ (c ∈ l ∧ isWS c = false) := by
  intro b l
  induction l generalizing b with
  | nil => intro h; simp [collapseWSAux] at h
  | cons x rest ih =>
    intro h
    by_cases hx : isWS x = true
    · simp only [collapseWSAux, hx, if_true] at h
      cases b with
      | true =>
        simp only [if_true] at h
        rcases ih true h with h2 | ⟨h2, h3⟩
        · exact Or.inl h2
        · exact Or.inr ⟨List.mem_cons_of_mem x h2, h3⟩
      | false =>
        simp only [Bool.false_eq_true, if_false] at h
        rcases List.mem_cons.mp h with rfl | h2
        · exact Or.inl rfl
        · rcases ih true h2 with h3 | ⟨h3, h4⟩
          · exact Or.inl h3
          · exact Or.inr ⟨List.mem_cons_of_mem x h3, h4⟩
    · simp only [collapseWSAux, hx, if_false] at h
      rcases List.mem_cons.mp h with rfl | h2
      · exact Or.inr ⟨List.mem_cons_self c rest, by simpa using hx⟩
      · rcases ih false h2 with h3 | ⟨h3, h4⟩
        · exact Or.inl h3
        · exact Or.inr ⟨List.mem_cons_of_mem x h3, h4⟩

/-- Trimming only removes characters. -/
theorem mem_jsTrim {c : Char} {l : JStr} (h : c ∈ jsTrim l) : c ∈ l := by
  unfold jsTrim at h
  rw [List.mem_reverse] at h
  have h1 := (List.dropWhile_suffix (l := (l.dropWhile isWS).reverse) isWS).sublist.mem h
  rw [List.mem_reverse] at h1
  exact (List.dropWhile_suffix isWS).sublist.mem h1

/-- C3: for every NFKD primitive and every input, sanitizeForFilename
returns at most 64 characters, each an ASCII letter, digit, hyphen,
underscore or dot (hence no whitespace anywhere, in particular not at
either end); it is a total function, and empty input yields empty
output whenever the primitive preserves emptiness (as the real NFKD
normalization does). -/
theorem sanitizeForFilename_spec (nfkd : JStr → JStr) (value : JStr)
    (hnil : nfkd [] = []) :
    (sanitizeForFilename nfkd value).length ≤ 64 ∧
    (∀ c ∈ sanitizeForFilename nfkd value,
      (isAl c = true ∨ c = '-' ∨ c = '_' ∨ c = '.') ∧ isWS c = false) ∧
    sanitizeForFilename nfkd [] = [] := by
  refine ⟨List.length_take_le _ _, ?_, ?_⟩
  · intro c hc
    have hc1 : c ∈ collapseWS (jsTrim (replaceDisallowed
        ((nfkd value).filter (fun x => !isCombining x)))) :=
      List.take_subset _ _ hc
    unfold collapseWS at hc1
    rcases mem_collapseWSAux false _ hc1 with rfl | ⟨hmem, hws⟩
    · exact ⟨Or.inr (Or.inr (Or.inl rfl)), by decide⟩
    · refine ⟨?_, hws⟩
      have hall : sanAllowed c = true := by
        have hmem2 := mem_jsTrim hmem
        unfold replaceDisallowed at hmem2
        exact mem_replaceDisallowedAux false _ hmem2
      simp only [sanAllowed, Bool.or_eq_true, decide_eq_true_eq] at hall
      rcases hall with ((((h1 | h1) | h1) | h1) | h1)
      · exact Or.inl h1
      · exact Or.inr (Or.inl h1)
      · exact Or.inr (Or.inr (Or.inl h1))
      · exact Or.inr (Or.inr (Or.inr h1))
      · subst h1; exact absurd hws (by decide)
  · unfold sanitizeForFilename
    rw [hnil]
    rfl

/-- Witness for the sanitizer claim at the identity primitive and a
concrete input. -/
theorem sanitizeForFilename_spec_witness :
    (sanitizeForFilename (fun l => l) (("a b!?c  d").toList)).length ≤ 64 ∧
    (∀ c ∈ sanitizeForFilename (fun l => l) (("a b!?c  d").toList),
      (isAl c = true ∨ c = '-' ∨ c = '_' ∨ c = '.') ∧ isWS c = false) ∧
    sanitizeForFilename (fun l => l) [] = [] :=
  sanitizeForFilename_spec (fun l => l) (("a b!?c  d").toList) rfl

/-- C10: a string index entry that normalizes successfully gets the
entry string itself as thumbUrl exactly when the string starts with
http, and no thumbnail otherwise; entries with no generation id yield
no record at all. -/
theorem string_entry_thumbUrl_spec (s : JStr) :
    (normalizeIndexEntry (Json.str s)).map IndexRecord.thumbUrl
      = (extractGenId s).map (fun _ => if startsWithHttp s then some s else none) := by
  cases h : extractGenId s <;> simp [normalizeIndexEntry, h]

/-- C9: resolvePrompt resolves with strict priority: the sidecar's
Prompt field, then the record's own prompt field, then the prompt
nested in the record's original payload, else empty; in particular
whenever both a usable sidecar prompt and a usable record prompt are
present, the sidecar prompt (trimmed) is returned. -/
theorem resolvePrompt_priority (e : IndexRecord) (m : Json) :
    (∀ ps, truthy m = true → jget (objFields m) (("Prompt").toList) = some (Json.str ps) →
      (jsTrim ps).isEmpty = false → resolvePrompt (some e) (some m) = jsTrim ps) ∧
    (sidecarPrompt (some m) = none → ∀ pe, e.prompt = some pe → (jsTrim pe).isEmpty = false →
      resolvePrompt (some e) (some m) = jsTrim pe) ∧
    (sidecarPrompt (some m) = none → recordPrompt (some e) = none →
      resolvePrompt (some e) (some m) = originalPrompt (some e)) ∧
    (∀ ps pe, truthy m = true → jget (objFields m) (("Prompt").toList) = some (Json.str ps) →
      (jsTrim ps).isEmpty = false → e.prompt = some pe →
      resolvePrompt (some e) (some m) = jsTrim ps) := by
  have hside : ∀ ps, truthy m = true → jget (objFields m) (("Prompt").toList) = some (Json.str ps) →
      (jsTrim ps).isEmpty = false → sidecarPrompt (some m) = some (jsTrim ps) := by
    intro ps ht hj hne
    simp only [sidecarPrompt]
    rw [if_pos ht, hj]
    simp [hne]
  refine ⟨?_, ?_, ?_, ?_⟩
  · intro ps ht hj hne
    unfold resolvePrompt
    rw [hside ps ht hj hne]
  · intro h0 pe hpe hne
    unfold resolvePrompt
    rw [h0]
    have : recordPrompt (some e) = some (jsTrim pe) := by
      simp [recordPrompt, hpe, hne]
    rw [this]
  · intro h0 h1
    unfold resolvePrompt
    rw [h0, h1]
  · intro ps pe ht hj hne hpe
    unfold resolvePrompt
    rw [hside ps ht hj hne]

/-- Witness for the prompt-priority claim: both prompts present, the
sidecar's wins. -/
theorem resolvePrompt_priority_witness :
    resolvePrompt
      (some ⟨("gen_a").toList, ("u").toList, none, some (("index prompt").toList), Json.null⟩)
      (some (Json.obj [((("Prompt").toList), Json.str ((" sidecar ").toList))]))
      = jsTrim ((" sidecar ").toList) :=
  (resolvePrompt_priority
    ⟨("gen_a").toList, ("u").toList, none, some (("index prompt").toList), Json.null⟩
    (Json.obj [((("Prompt").toList), Json.str ((" sidecar ").toList))])).2.2.2
    ((" sidecar ").toList) (("index prompt").toList) rfl rfl rfl rfl

/-- Unfolding of the normalization loop: kept records in order and a
count of the dropped entries. -/
theorem foldl_normStep (xs : List Json) (items : List IndexRecord) (k : Nat) :
    xs.foldl normStep ⟨items, k⟩ =
      ⟨items ++ xs.filterMap normalizeIndexEntry,
        k + (xs.filter (fun e => (normalizeIndexEntry e).isNone)).length⟩ := by
  induction xs generalizing items k with
  | nil => simp
  | cons x rest ih =>
    rw [List.foldl_cons]
    cases hx : normalizeIndexEntry x with
    | some r =>
      rw [show normStep ⟨items, k⟩ x = ⟨items ++ [r], k⟩ by simp [normStep, hx]]
      rw [ih]
      simp [List.filterMap_cons, List.filter_cons, hx]
    | none =>
      rw [show normStep ⟨items, k⟩ x = ⟨items, k + 1⟩ by simp [normStep, hx]]
      rw [ih]
      simp [List.filterMap_cons, List.filter_cons, hx]
      omega

/-- C7: normalizeIndexData accepts exactly a top-level array or an
object whose items field is an array and throws a format error on any
other shape; within an accepted list each entry is normalized
independently, failures being counted as skipped, never thrown; the
empty object throws while the list holding null and gen_ok yields one
record with one skipped. -/
theorem normalizeIndexData_spec :
    (∃ msg, normalizeIndexData (Json.obj []) = Except.error msg) ∧
    (∃ n, normalizeIndexData (Json.arr [Json.null, Json.str (("gen_ok").toList)]) = Except.ok n ∧
      n.items.length = 1 ∧ n.skipped = 1) ∧
    (∀ raw, (∃ n, normalizeIndexData raw = Except.ok n) ↔
      ((∃ xs, raw = Json.arr xs) ∨
        (∃ fs2 xs, raw = Json.obj fs2 ∧ jget fs2 (("items").toList) = some (Json.arr xs)))) ∧
    (∀ xs, normalizeIndexData (Json.arr xs) =
      Except.ok ⟨xs.filterMap normalizeIndexEntry,
        (xs.filter (fun e => (normalizeIndexEntry e).isNone)).length⟩) := by
  refine ⟨⟨_, rfl⟩, ⟨_, rfl, rfl, rfl⟩, ?_, ?_⟩
  · intro raw
    constructor
    · rintro ⟨n, hn⟩
      cases raw with
      | arr xs => exact Or.inl ⟨xs, rfl⟩
      | obj fs2 =>
        cases hg : jget fs2 (("items").toList) with
        | none => simp only [normalizeIndexData, hg] at hn; simp at hn
        | some v =>
          simp only [normalizeIndexData, hg] at hn
          cases v with
          | arr xs => exact Or.inr ⟨fs2, xs, rfl, hg⟩
          | null => simp at hn
          | bool b => simp at hn
          | num q => simp at hn
          | str s => simp at hn
          | obj fs3 => simp at hn
      | null => simp [normalizeIndexData] at hn
      | bool b => simp [normalizeIndexData] at hn
      | num q => simp [normalizeIndexData] at hn
      | str s => simp [normalizeIndexData] at hn
    · rintro (⟨xs, rfl⟩ | ⟨fs2, xs, rfl, hg⟩)
      · exact ⟨_, rfl⟩
      · exact ⟨normalizeList xs, by simp only [normalizeIndexData, hg]⟩
  · intro xs
    show Except.ok (normalizeList xs) = _
    rw [normalizeList, foldl_normStep]
    simp

/-- Witness for the index-format claim at a concrete accepted list. -/
theorem normalizeIndexData_spec_witness :
    normalizeIndexData (Json.arr [Json.null]) =
      Except.ok ⟨([Json.null]).filterMap normalizeIndexEntry,
        (([Json.null]).filter (fun e => (normalizeIndexEntry e).isNone)).length⟩ :=
  normalizeIndexData_spec.2.2.2 [Json.null]

/-- A pattern match is never the empty string. -/
theorem genPat_ne_nil {m : JStr} (h : genPat m) : m ≠ [] := by
  rcases h with ⟨g, e, n, ds, rfl, -⟩
  simp

/-- A prefix whose characters all satisfy the predicate is also a
prefix of the takeWhile of the longer list. -/
theorem prefix_takeWhile {p : Char → Bool} :
    ∀ {ds rest : JStr}, ds <+: rest → (∀ c ∈ ds, p c = true) → ds <+: rest.takeWhile p := by
  intro ds
  induction ds with
  | nil => intro rest h1 h2; exact List.nil_prefix
  | cons d tail ih =>
    intro rest hpre hall
    rcases hpre with ⟨t, ht⟩
    subst ht
    rw [List.cons_append, List.takeWhile_cons, hall d (List.mem_cons_self d tail)]
    rw [if_pos rfl]
    exact List.cons_prefix_cons.mpr ⟨rfl, ih ⟨t, rfl⟩ (fun c hc => hall c (List.mem_cons_of_mem d hc))⟩

/-- A successful match attempt yields a pattern match that is a prefix
of the attempted position. -/
theorem matchGenAt_some : ∀ {l m : JStr}, matchGenAt l = some m → genPat m ∧ m <+: l := by
  intro l m h
  rcases l with - | ⟨g, - | ⟨e, - | ⟨n, - | ⟨u, rest⟩⟩⟩⟩
  · simp only [matchGenAt] at h; exact Option.noConfusion h
  · simp only [matchGenAt] at h; exact Option.noConfusion h
  · simp only [matchGenAt] at h; exact Option.noConfusion h
  · simp only [matchGenAt] at h; exact Option.noConfusion h
  simp only [matchGenAt] at h
  split at h
  · split at h
    · cases h
    · next hcond hne =>
      injection h with hm
      subst hm
      obtain ⟨hg, he, hn, hu⟩ := hcond
      subst hu
      obtain ⟨t, ht⟩ := List.takeWhile_prefix (l := rest) isAl
      constructor
      · exact ⟨g, e, n, rest.takeWhile isAl, rfl, hg, he, hn,
          by simpa [List.isEmpty_iff] using hne, fun c hc => List.mem_takeWhile_imp hc⟩
      · exact ⟨t, by rw [List.cons_append, List.cons_append, List.cons_append, List.cons_append, ht]⟩
  · cases h

/-- If a pattern match starts at a position, the match attempt there
succeeds. -/
theorem matchGenAt_of_genPat : ∀ {l m : JStr}, genPat m → m <+: l →
    ∃ mm, matchGenAt l = some mm := by
  intro l m hp hpre
  rcases hp with ⟨g, e, n, ds, rfl, hg, he, hn, hne, hall⟩
  rcases hpre with ⟨t, ht⟩
  subst ht
  simp only [List.cons_append, matchGenAt]
  rw [if_pos ⟨hg, he, hn, by trivial⟩]
  rcases ds with - | ⟨d, tail⟩
  · exact absurd rfl hne
  · rw [List.cons_append, List.takeWhile_cons, hall d (List.mem_cons_self d tail), if_pos rfl]
    simp

/-- A successful match attempt is maximal: every pattern match starting
at the same position is a prefix of the returned one. -/
theorem matchGenAt_max : ∀ {l m mm : JStr}, matchGenAt l = some m → genPat mm → mm <+: l →
    mm <+: m := by
  intro l m mm h hp hpre
  rcases hp with ⟨g, e, n, ds, rfl, hg, he, hn, hne, hall⟩
  rcases hpre with ⟨t, ht⟩
  subst ht
  simp only [List.cons_append, matchGenAt] at h
  rw [if_pos ⟨hg, he, hn, by trivial⟩] at h
  split at h
  · cases h
  · injection h with hm
    subst hm
    have hdp : ds <+: (ds ++ t).takeWhile isAl := prefix_takeWhile ⟨t, rfl⟩ hall
    rcases hdp with ⟨u, hu⟩
    exact ⟨u, by rw [List.cons_append, List.cons_append, List.cons_append, List.cons_append, hu]⟩

/-- The leftmost scan finds nothing exactly when no pattern match
starts anywhere in the string. -/
theorem findGenId_none : ∀ (l : JStr), (findGenId l = none ↔ ∀ i m, genPat m → ¬ m <+: l.drop i)
  | [] => by
    simp only [findGenId, List.drop_nil]
    refine ⟨fun h i m hp hpre => ?_, fun h => by trivial⟩
    exact genPat_ne_nil hp (List.prefix_nil.mp hpre)
  | c :: rest => by
    rw [findGenId]
    cases hM : matchGenAt (c :: rest) with
    | some m0 =>
      simp only
      constructor
      · intro h; cases h
      · intro h
        obtain ⟨hp, hpre⟩ := matchGenAt_some hM
        exact absurd (by simpa using hpre) (h 0 m0 hp)
    | none =>
      simp only
      rw [findGenId_none rest]
      constructor
      · intro h i m hp hpre
        cases i with
        | zero =>
          rw [List.drop_zero] at hpre
          rcases matchGenAt_of_genPat hp hpre with ⟨mm, hmm⟩
          rw [hM] at hmm; cases hmm
        | succ j => exact h j m hp (by simpa using hpre)
      · intro h i m hp hpre
        exact h (i + 1) m hp (by simpa using hpre)

/-- A successful leftmost scan comes from the first position where a
match attempt succeeds. -/
theorem findGenId_some : ∀ {l m : JStr}, findGenId l = some m →
    ∃ i, matchGenAt (l.drop i) = some m ∧ ∀ j, j < i → matchGenAt (l.drop j) = none := by
  intro l
  induction l with
  | nil => intro m h; simp [findGenId] at h
  | cons c rest ih =>
    intro m h
    rw [findGenId] at h
    cases hM : matchGenAt (c :: rest) with
    | some m0 =>
      rw [hM] at h
      injection h with h2
      subst h2
      exact ⟨0, by simpa using hM, fun j hj => absurd hj (Nat.not_lt_zero j)⟩
    | none =>
      rw [hM] at h
      obtain ⟨i, hi, hlt⟩ := ih h
      refine ⟨i + 1, by simpa using hi, ?_⟩
      intro j hj
      cases j with
      | zero => simpa using hM
      | succ j2 => simpa using hlt j2 (by omega)

/-- Every value returned by extractGenId matches the declarative
generation-id pattern. -/
theorem extractGenId_genPat {s m : JStr} (h : extractGenId s = some m) : genPat m := by
  unfold extractGenId at h
  split at h
  · cases h
  · obtain ⟨i, hi, -⟩ := findGenId_some h
    exact (matchGenAt_some hi).1

/-- C4: extractGenId returns gen_ab12cd on the URL example and nothing
on the no-id example; in general it returns nothing exactly when no
substring matches the case-insensitive pattern of the literal gen_
followed by one or more alphanumerics, and a returned match is a
pattern match occurring in the string such that no earlier position
carries any match and every match at its own position is contained in
it (leftmost, then greedy). -/
theorem extractGenId_spec (l : JStr) :
    extractGenId (("https://x/gen_ab12cd/y").toList) = some (("gen_ab12cd").toList) ∧
    extractGenId (("no id here").toList) = none ∧
    (extractGenId l = none ↔ ∀ i m, genPat m → ¬ m <+: l.drop i) ∧
    (∀ m, extractGenId l = some m →
      genPat m ∧ ∃ i, m <+: l.drop i ∧
        (∀ mm, genPat mm → mm <+: l.drop i → mm <+: m) ∧
        (∀ j, j < i → ∀ mm, genPat mm → ¬ mm <+: l.drop j)) := by
  refine ⟨by decide, by decide, ?_, ?_⟩
  · cases l with
    | nil =>
      simp only [extractGenId, List.isEmpty_nil, if_true, List.drop_nil]
      refine ⟨fun h i m hp hpre => ?_, fun h => by trivial⟩
      exact genPat_ne_nil hp (List.prefix_nil.mp hpre)
    | cons c rest =>
      show (findGenId (c :: rest) = none ↔ _)
      exact findGenId_none (c :: rest)
  · intro m h
    unfold extractGenId at h
    split at h
    · cases h
    · obtain ⟨i, hi, hlt⟩ := findGenId_some h
      obtain ⟨hp, hpre⟩ := matchGenAt_some hi
      refine ⟨hp, i, hpre, ?_, ?_⟩
      · intro mm hp2 hpre2
        exact matchGenAt_max hi hp2 hpre2
      · intro j hj mm hp2 hpre2
        rcases matchGenAt_of_genPat hp2 hpre2 with ⟨m3, hm3⟩
        rw [hlt j hj] at hm3
        cases hm3

/-- Witness for the extraction claim: the leftmost-then-greedy
characterization applied at a concrete string. -/
theorem extractGenId_spec_witness :
    genPat (("gen_ab").toList) ∧ ∃ i, (("gen_ab").toList) <+: (("xgen_ab").toList).drop i ∧
      (∀ mm, genPat mm → mm <+: (("xgen_ab").toList).drop i → mm <+: (("gen_ab").toList)) ∧
      (∀ j, j < i → ∀ mm, genPat mm → ¬ mm <+: (("xgen_ab").toList).drop j) :=
  (extractGenId_spec (("xgen_ab").toList)).2.2.2 (("gen_ab").toList) rfl

/-- C5 counterexample: the object entry whose explicit id field is the
pattern-free string foo is not dropped; it normalizes to a record whose
id is foo verbatim, which does not match the generation-id pattern. -/
theorem normalizeIndexEntry_keeps_nonpattern_id :
    ∃ r, normalizeIndexEntry entryFoo = some r ∧ r.id = ("foo").toList ∧ ¬ genPat r.id := by
  refine ⟨⟨("foo").toList, buildPageUrl (("foo").toList), none, none, entryFoo⟩, rfl, rfl, ?_⟩
  rintro ⟨g, e, n, ds, hm, -⟩
  have hm2 : (("foo").toList : JStr) = g :: e :: n :: '_' :: ds := hm
  have hl := congrArg List.length hm2
  have h3 : ((("foo").toList : JStr)).length = 3 := rfl
  simp only [List.length_cons] at hl
  omega

/-- C5 amended: a record produced by normalizeIndexEntry has an id that
matches the generation-id pattern, unless the entry's explicit id field
is a truthy pattern-free string, in which case the id is that field
verbatim; a string entry with no pattern match, and an object entry
with no usable id field and no pattern match in its serialized form,
are dropped, and normalizeIndexData counts every dropped entry in its
skipped count instead of throwing. -/
theorem normalizeIndexEntry_id_spec (e : Json) :
    (∀ r, normalizeIndexEntry e = some r →
      genPat r.id ∨ strField (objFields e) (("id").toList) = some r.id) ∧
    (∀ fs2, e = Json.obj fs2 → strField fs2 (("id").toList) = none →
      extractGenId (stringify e) = none → normalizeIndexEntry e = none) ∧
    (∀ s, e = Json.str s → extractGenId s = none → normalizeIndexEntry e = none) ∧
    (∀ xs, normalizeList xs =
      ⟨xs.filterMap normalizeIndexEntry,
        (xs.filter (fun x => (normalizeIndexEntry x).isNone)).length⟩) := by
  have hobj : ∀ (ent : Json) (fields : List (JStr × Json)) (r : IndexRecord),
      normalizeObjectEntry ent fields = some r →
      genPat r.id ∨ strField fields (("id").toList) = some r.id := by
    intro ent fields r h
    cases hsf : strField fields (("id").toList) with
    | some s =>
      cases hx : extractGenId s with
      | some m =>
        simp only [normalizeObjectEntry, hsf, hx, Option.getD_some] at h
        injection h with h2
        subst h2
        exact Or.inl (extractGenId_genPat hx)
      | none =>
        simp only [normalizeObjectEntry, hsf, hx, Option.getD_none] at h
        injection h with h2
        subst h2
        exact Or.inr rfl
    | none =>
      cases hx : extractGenId (stringify ent) with
      | some m =>
        simp only [normalizeObjectEntry, hsf, hx] at h
        injection h with h2
        subst h2
        exact Or.inl (extractGenId_genPat hx)
      | none =>
        simp only [normalizeObjectEntry, hsf, hx] at h
        exact Option.noConfusion h
  refine ⟨?_, ?_, ?_, ?_⟩
  · intro r h
    cases e with
    | null => cases h
    | bool b => cases h
    | num q => cases h
    | str s =>
      simp only [normalizeIndexEntry] at h
      cases hx : extractGenId s with
      | none => rw [hx] at h; cases h
      | some id =>
        rw [hx] at h
        injection h with h2
        subst h2
        exact Or.inl (extractGenId_genPat hx)
    | arr xs => exact hobj (Json.arr xs) [] r h
    | obj fs2 => exact hobj (Json.obj fs2) fs2 r h
  · intro fs2 he hsf hx
    subst he
    show normalizeObjectEntry (Json.obj fs2) fs2 = none
    simp only [normalizeObjectEntry, hsf, hx]
  · intro s he hx
    subst he
    simp only [normalizeIndexEntry]
    rw [hx]
  · intro xs
    rw [normalizeList, foldl_normStep]
    simp

/-- Witness for the amended id-shape claim at the foo entry. -/
theorem normalizeIndexEntry_id_spec_witness :
    genPat (("foo").toList) ∨ strField (objFields entryFoo) (("id").toList) = some (("foo").toList) :=
  (normalizeIndexEntry_id_spec entryFoo).1
    ⟨("foo").toList, buildPageUrl (("foo").toList), none, none, entryFoo⟩ rfl

/-- C6 counterexample: when the first URL-ish field carries a
generation id different from the computed id, the found URL is kept,
not replaced by the canonical URL built from the computed id. -/
theorem normalizeIndexEntry_keeps_disagreeing_pageUrl :
    ∃ r, normalizeIndexEntry entryHrefOther = some r ∧
      r.id = ("gen_aaa").toList ∧
      findPageUrl (objFields entryHrefOther) = some (("https://x/gen_bbb").toList) ∧
      extractGenId (("https://x/gen_bbb").toList) = some (("gen_bbb").toList) ∧
      (("gen_bbb").toList : JStr) ≠ ("gen_aaa").toList ∧
      r.pageUrl = ("https://x/gen_bbb").toList ∧
      r.pageUrl ≠ buildPageUrl (("gen_aaa").toList) := by
  refine ⟨⟨("gen_aaa").toList, ("https://x/gen_bbb").toList, none, none, entryHrefOther⟩,
    rfl, rfl, rfl, rfl, by decide, rfl, by decide⟩

/-- C6 amended: for an object entry the pageUrl is the value of the
first present URL-ish field (href, url, pageUrl, link) and is replaced
by the canonical URL built from the computed id only when that value
contains no generation id at all (a disagreeing id is kept); when no
URL-ish field is present the canonical URL built from the id is used. -/
theorem normalizeIndexEntry_pageUrl_spec (fs2 : List (JStr × Json)) (r : IndexRecord)
    (h : normalizeIndexEntry (Json.obj fs2) = some r) :
    (∃ u, findPageUrl fs2 = some u ∧ (extractGenId u).isSome = true ∧ r.pageUrl = u) ∨
    (r.pageUrl = buildPageUrl r.id ∧
      (findPageUrl fs2 = none ∨ ∃ u, findPageUrl fs2 = some u ∧ extractGenId u = none)) := by
  have h2 : normalizeObjectEntry (Json.obj fs2) fs2 = some r := h
  clear h
  cases hfp : findPageUrl fs2 with
  | none =>
    cases hsf : strField fs2 (("id").toList) with
    | some s =>
      simp only [normalizeObjectEntry, hsf, hfp, Option.getD_none] at h2
      split at h2 <;>
        (injection h2 with h3; subst h3; exact Or.inr ⟨rfl, Or.inl rfl⟩)
    | none =>
      cases hx2 : extractGenId (stringify (Json.obj fs2)) with
      | none =>
        simp only [normalizeObjectEntry, hsf, hx2] at h2
        exact Option.noConfusion h2
      | some idv =>
        simp only [normalizeObjectEntry, hsf, hx2, hfp, Option.getD_none] at h2
        split at h2 <;>
          (injection h2 with h3; subst h3; exact Or.inr ⟨rfl, Or.inl rfl⟩)
  | some u =>
    cases hx : extractGenId u with
    | some m =>
      cases hsf : strField fs2 (("id").toList) with
      | some s =>
        simp only [normalizeObjectEntry, hsf, hfp, hx, Option.getD_some, Option.isSome_some,
          if_true] at h2
        injection h2 with h3
        subst h3
        exact Or.inl ⟨u, rfl, by rw [hx]; rfl, rfl⟩
      | none =>
        cases hx2 : extractGenId (stringify (Json.obj fs2)) with
        | none =>
          simp only [normalizeObjectEntry, hsf, hx2] at h2
          exact Option.noConfusion h2
        | some idv =>
          simp only [normalizeObjectEntry, hsf, hx2, hfp, hx, Option.getD_some,
            Option.isSome_some, if_true] at h2
          injection h2 with h3
          subst h3
          exact Or.inl ⟨u, rfl, by rw [hx]; rfl, rfl⟩
    | none =>
      cases hsf : strField fs2 (("id").toList) with
      | some s =>
        simp only [normalizeObjectEntry, hsf, hfp, hx, Option.getD_some, Option.isSome_none,
          Bool.false_eq_true, if_false] at h2
        injection h2 with h3
        subst h3
        exact Or.inr ⟨rfl, Or.inr ⟨u, rfl, hx⟩⟩
      | none =>
        cases hx2 : extractGenId (stringify (Json.obj fs2)) with
        | none =>
          simp only [normalizeObjectEntry, hsf, hx2] at h2
          exact Option.noConfusion h2
        | some idv =>
          simp only [normalizeObjectEntry, hsf, hx2, hfp, hx, Option.getD_some,
            Option.isSome_none, Bool.false_eq_true, if_false] at h2
          injection h2 with h3
          subst h3
          exact Or.inr ⟨rfl, Or.inr ⟨u, rfl, hx⟩⟩

/-- Witness for the amended pageUrl claim at the disagreeing entry. -/
theorem normalizeIndexEntry_pageUrl_spec_witness :
    (∃ u, findPageUrl (objFields entryHrefOther) = some u ∧ (extractGenId u).isSome = true ∧
      (⟨("gen_aaa").toList, ("https://x/gen_bbb").toList, none, none,
        entryHrefOther⟩ : IndexRecord).pageUrl = u) ∨
    ((⟨("gen_aaa").toList, ("https://x/gen_bbb").toList, none, none,
        entryHrefOther⟩ : IndexRecord).pageUrl =
      buildPageUrl (⟨("gen_aaa").toList, ("https://x/gen_bbb").toList, none, none,
        entryHrefOther⟩ : IndexRecord).id ∧
      (findPageUrl (objFields entryHrefOther) = none ∨
        ∃ u, findPageUrl (objFields entryHrefOther) = some u ∧ extractGenId u = none)) :=
  normalizeIndexEntry_pageUrl_spec (objFields entryHrefOther)
    ⟨("gen_aaa").toList, ("https://x/gen_bbb").toList, none, none, entryHrefOther⟩ rfl

/-- Updating an id yields that id's mutated entry (the default entry is
created first when absent). -/
theorem lookupEntry_updateEntry_self (byId : List (JStr × ArchiveEntry)) (id : JStr)
    (g : ArchiveEntry → ArchiveEntry) :
    lookupEntry (updateEntry byId id g) id = some (g ((lookupEntry byId id).getD emptyEntry)) := by
  induction byId with
  | nil =>
    show lookupEntry [(id, g emptyEntry)] id = _
    unfold lookupEntry
    rw [List.find?_cons_of_pos _ (by simp)]
    rfl
  | cons p rest ih =>
    obtain ⟨k, v⟩ := p
    by_cases hk : k = id
    · subst hk
      have hupd : updateEntry ((k, v) :: rest) k g = (k, g v) :: rest := by
        simp [updateEntry]
      rw [hupd]
      unfold lookupEntry
      rw [List.find?_cons_of_pos _ (by simp), List.find?_cons_of_pos _ (by simp)]
      rfl
    · have hupd : updateEntry ((k, v) :: rest) id g = (k, v) :: updateEntry rest id g := by
        simp [updateEntry, hk]
      rw [hupd]
      unfold lookupEntry
      rw [List.find?_cons_of_neg _ (by simp [hk]), List.find?_cons_of_neg _ (by simp [hk])]
      exact ih

/-- Updating one id leaves every other id's entry unchanged. -/
theorem lookupEntry_updateEntry_other (byId : List (JStr × ArchiveEntry)) (id id2 : JStr)
    (hne : id2 ≠ id) (g : ArchiveEntry → ArchiveEntry) :
    lookupEntry (updateEntry byId id g) id2 = lookupEntry byId id2 := by
  induction byId with
  | nil =>
    show lookupEntry [(id, g emptyEntry)] id2 = _
    unfold lookupEntry
    rw [List.find?_cons_of_neg _ (by simp [Ne.symm hne])]
  | cons p rest ih =>
    obtain ⟨k, v⟩ := p
    by_cases hk : k = id
    · subst hk
      have hupd : updateEntry ((k, v) :: rest) k g = (k, g v) :: rest := by
        simp [updateEntry]
      rw [hupd]
      unfold lookupEntry
      rw [List.find?_cons_of_neg _ (by simp [Ne.symm hne]),
        List.find?_cons_of_neg _ (by simp [Ne.symm hne])]
    · have hupd : updateEntry ((k, v) :: rest) id g = (k, v) :: updateEntry rest id g := by
        simp [updateEntry, hk]
      rw [hupd]
      by_cases hk2 : k = id2
      · subst hk2
        unfold lookupEntry
        rw [List.find?_cons_of_pos _ (by simp), List.find?_cons_of_pos _ (by simp)]
      · unfold lookupEntry
        rw [List.find?_cons_of_neg _ (by simp [hk2]), List.find?_cons_of_neg _ (by simp [hk2])]
        exact ih

/-- A file yielding no id is ignored by the scan step. -/
theorem processFile_noId (st : ScanResult) (f : ScanFile)
    (hid : extractIdFromName f.name = none) : processFile st f = st := by
  unfold processFile
  rw [hid]

/-- Scan step on a successfully parsed sidecar. -/
theorem processFile_sidecar_ok (st : ScanResult) (f : ScanFile) (fid : JStr) (j : Json)
    (hid : extractIdFromName f.name = some fid) (hmeta : isMetaFile f.name = true)
    (hc : f.content = Except.ok j) :
    processFile st f = ⟨updateEntry st.byId fid (fun e => ⟨e.files, some j, none⟩),
      st.mediaCount, st.metaCount + 1, st.errors⟩ := by
  unfold processFile
  rw [hid, hc]
  simp [hmeta]

/-- Scan step on a sidecar whose parse fails. -/
theorem processFile_sidecar_err (st : ScanResult) (f : ScanFile) (fid : JStr) (inner : JStr)
    (hid : extractIdFromName f.name = some fid) (hmeta : isMetaFile f.name = true)
    (hc : f.content = Except.error inner) :
    processFile st f = ⟨updateEntry st.byId fid
        (fun e => ⟨e.files, e.meta, some (readErrMsg f.name inner)⟩),
      st.mediaCount, st.metaCount, st.errors ++ [readErrMsg f.name inner]⟩ := by
  unfold processFile
  rw [hid, hc]
  simp [hmeta]

/-- Scan step on a media file. -/
theorem processFile_media (st : ScanResult) (f : ScanFile) (fid : JStr)
    (hid : extractIdFromName f.name = some fid) (hmeta : isMetaFile f.name = false)
    (hmedia : isMediaFile f.name = true) :
    processFile st f = ⟨updateEntry st.byId fid
        (fun e => ⟨e.files ++ [f.name], e.meta, e.metaError⟩),
      st.mediaCount + 1, st.metaCount, st.errors⟩ := by
  unfold processFile
  rw [hid]
  simp [hmeta, hmedia]

/-- Scan step on a file that is neither sidecar nor media. -/
theorem processFile_other (st : ScanResult) (f : ScanFile) (fid : JStr)
    (hid : extractIdFromName f.name = some fid) (hmeta : isMetaFile f.name = false)
    (hmedia : isMediaFile f.name = false) : processFile st f = st := by
  unfold processFile
  rw [hid]
  simp [hmeta, hmedia]

/-- Effect of one scan step on an id's file list: only a media file of
that very id appends (its own name); sidecars and foreign files leave
it untouched. -/
theorem entryFiles_processFile (st : ScanResult) (f : ScanFile) (id : JStr) :
    entryFiles (processFile st f) id =
      entryFiles st id ++ (if isMediaFor id f then [f.name] else []) := by
  cases hid : extractIdFromName f.name with
  | none =>
    have hmed : isMediaFor id f = false := by simp [isMediaFor, hid]
    rw [processFile_noId st f hid, hmed]
    simp
  | some fid =>
    by_cases hmeta : isMetaFile f.name = true
    · have hmed : isMediaFor id f = false := by simp [isMediaFor, hmeta]
      rw [hmed]
      simp only [Bool.false_eq_true, if_false, List.append_nil]
      cases hc : f.content with
      | ok j =>
        rw [processFile_sidecar_ok st f fid j hid hmeta hc]
        unfold entryFiles
        by_cases hq : fid = id
        · subst hq
          rw [lookupEntry_updateEntry_self]
          rfl
        · rw [lookupEntry_updateEntry_other _ _ _ (Ne.symm hq) _]
      | error inner =>
        rw [processFile_sidecar_err st f fid inner hid hmeta hc]
        unfold entryFiles
        by_cases hq : fid = id
        · subst hq
          rw [lookupEntry_updateEntry_self]
          rfl
        · rw [lookupEntry_updateEntry_other _ _ _ (Ne.symm hq) _]
    · have hmeta2 : isMetaFile f.name = false := by simpa using hmeta
      by_cases hmedia : isMediaFile f.name = true
      · rw [processFile_media st f fid hid hmeta2 hmedia]
        unfold entryFiles
        by_cases hq : fid = id
        · subst hq
          have hmed : isMediaFor fid f = true := by simp [isMediaFor, hid, hmeta2, hmedia]
          rw [hmed, lookupEntry_updateEntry_self]
          simp
        · have hmed : isMediaFor id f = false := by
            simp [isMediaFor, hid, decide_eq_true_eq]
            intro h2
            exact absurd h2 hq
          rw [hmed, lookupEntry_updateEntry_other _ _ _ (Ne.symm hq) _]
          simp
      · have hmedia2 : isMediaFile f.name = false := by simpa using hmedia
        have hmed : isMediaFor id f = false := by simp [isMediaFor, hmedia2]
        rw [processFile_other st f fid hid hmeta2 hmedia2, hmed]
        simp

/-- Effect of one scan step on an id's meta field: a successfully
parsed sidecar of that id overwrites it, everything else leaves it. -/
theorem entryMeta_processFile (st : ScanResult) (f : ScanFile) (id : JStr) :
    entryMeta (processFile st f) id =
      (if isSidecarFor id f then
        match f.content with
        | Except.ok j => some j
        | Except.error _ => entryMeta st id
      else entryMeta st id) := by
  cases hid : extractIdFromName f.name with
  | none =>
    have hside : isSidecarFor id f = false := by simp [isSidecarFor, hid]
    rw [processFile_noId st f hid, hside]
    simp
  | some fid =>
    by_cases hmeta : isMetaFile f.name = true
    · cases hc : f.content with
      | ok j =>
        rw [processFile_sidecar_ok st f fid j hid hmeta hc]
        unfold entryMeta
        by_cases hq : fid = id
        · subst hq
          have hside : isSidecarFor fid f = true := by simp [isSidecarFor, hid, hmeta]
          rw [hside, lookupEntry_updateEntry_self]
          simp
        · have hside : isSidecarFor id f = false := by
            simp [isSidecarFor, decide_eq_true_eq, hid]
            intro h2
            exact absurd h2 hq
          rw [hside, lookupEntry_updateEntry_other _ _ _ (Ne.symm hq) _]
          simp
      | error inner =>
        rw [processFile_sidecar_err st f fid inner hid hmeta hc]
        unfold entryMeta
        by_cases hq : fid = id
        · subst hq
          have hside : isSidecarFor fid f = true := by simp [isSidecarFor, hid, hmeta]
          rw [hside, lookupEntry_updateEntry_self]
          simp
        · have hside : isSidecarFor id f = false := by
            simp [isSidecarFor, decide_eq_true_eq, hid]
            intro h2
            exact absurd h2 hq
          rw [hside, lookupEntry_updateEntry_other _ _ _ (Ne.symm hq) _]
          simp
    · have hmeta2 : isMetaFile f.name = false := by simpa using hmeta
      have hside : isSidecarFor id f = false := by simp [isSidecarFor, hmeta2]
      rw [hside]
      simp only [Bool.false_eq_true, if_false]
      by_cases hmedia : isMediaFile f.name = true
      · rw [processFile_media st f fid hid hmeta2 hmedia]
        unfold entryMeta
        by_cases hq : fid = id
        · subst hq
          rw [lookupEntry_updateEntry_self]
          rfl
        · rw [lookupEntry_updateEntry_other _ _ _ (Ne.symm hq) _]
      · have hmedia2 : isMediaFile f.name = false := by simpa using hmedia
        rw [processFile_other st f fid hid hmeta2 hmedia2]

/-- Effect of one scan step on an id's metaError field: a sidecar of
that id overwrites it with its own outcome, everything else leaves it. -/
theorem entryMetaError_processFile (st : ScanResult) (f : ScanFile) (id : JStr) :
    entryMetaError (processFile st f) id =
      (if isSidecarFor id f then sidecarErr f else entryMetaError st id) := by
  cases hid : extractIdFromName f.name with
  | none =>
    have hside : isSidecarFor id f = false := by simp [isSidecarFor, hid]
    rw [processFile_noId st f hid, hside]
    simp
  | some fid =>
    by_cases hmeta : isMetaFile f.name = true
    · cases hc : f.content with
      | ok j =>
        rw [processFile_sidecar_ok st f fid j hid hmeta hc]
        unfold entryMetaError
        by_cases hq : fid = id
        · subst hq
          have hside : isSidecarFor fid f = true := by simp [isSidecarFor, hid, hmeta]
          rw [hside, lookupEntry_updateEntry_self]
          simp [sidecarErr, hc]
        · have hside : isSidecarFor id f = false := by
            simp [isSidecarFor, decide_eq_true_eq, hid]
            intro h2
            exact absurd h2 hq
          rw [hside, lookupEntry_updateEntry_other _ _ _ (Ne.symm hq) _]
          simp
      | error inner =>
        rw [processFile_sidecar_err st f fid inner hid hmeta hc]
        unfold entryMetaError
        by_cases hq : fid = id
        · subst hq
          have hside : isSidecarFor fid f = true := by simp [isSidecarFor, hid, hmeta]
          rw [hside, lookupEntry_updateEntry_self]
          simp [sidecarErr, hc]
        · have hside : isSidecarFor id f = false := by
            simp [isSidecarFor, decide_eq_true_eq, hid]
            intro h2
            exact absurd h2 hq
          rw [hside, lookupEntry_updateEntry_other _ _ _ (Ne.symm hq) _]
          simp
    · have hmeta2 : isMetaFile f.name = false := by simpa using hmeta
      have hside : isSidecarFor id f = false := by simp [isSidecarFor, hmeta2]
      rw [hside]
      simp only [Bool.false_eq_true, if_false]
      by_cases hmedia : isMediaFile f.name = true
      · rw [processFile_media st f fid hid hmeta2 hmedia]
        unfold entryMetaError
        by_cases hq : fid = id
        · subst hq
          rw [lookupEntry_updateEntry_self]
          rfl
        · rw [lookupEntry_updateEntry_other _ _ _ (Ne.symm hq) _]
      · have hmedia2 : isMediaFile f.name = false := by simpa using hmedia
        rw [processFile_other st f fid hid hmeta2 hmedia2]

/-- Effect of one scan step on the flat error list: only a failing
sidecar with an id appends (its wrapped message). -/
theorem errors_processFile (st : ScanResult) (f : ScanFile) :
    (processFile st f).errors = st.errors ++
      (if (extractIdFromName f.name).isSome && isMetaFile f.name then
        match f.content with
        | Except.ok _ => []
        | Except.error inner => [readErrMsg f.name inner]
      else []) := by
  cases hid : extractIdFromName f.name with
  | none =>
    rw [processFile_noId st f hid]
    simp [hid]
  | some fid =>
    by_cases hmeta : isMetaFile f.name = true
    · cases hc : f.content with
      | ok j =>
        rw [processFile_sidecar_ok st f fid j hid hmeta hc]
        simp [hid, hmeta, hc]
      | error inner =>
        rw [processFile_sidecar_err st f fid inner hid hmeta hc]
        simp [hid, hmeta, hc]
    · have hmeta2 : isMetaFile f.name = false := by simpa using hmeta
      by_cases hmedia : isMediaFile f.name = true
      · rw [processFile_media st f fid hid hmeta2 hmedia]
        simp [hmeta2]
      · have hmedia2 : isMediaFile f.name = false := by simpa using hmedia
        rw [processFile_other st f fid hid hmeta2 hmedia2]
        simp [hmeta2]

/-- Folding the scan over a file list appends exactly the id's media
file names to its file list. -/
theorem entryFiles_foldl (fs : List ScanFile) (st : ScanResult) (id : JStr) :
    entryFiles (fs.foldl processFile st) id = entryFiles st id ++ mediaNamesFor id fs := by
  induction fs generalizing st with
  | nil => simp [mediaNamesFor]
  | cons f rest ih =>
    rw [List.foldl_cons, ih, entryFiles_processFile]
    by_cases hm : isMediaFor id f = true
    · simp [mediaNamesFor, List.filter_cons, hm]
    · have hm2 : isMediaFor id f = false := by simpa using hm
      simp [mediaNamesFor, List.filter_cons, hm2]

/-- Folding the scan over a file list sets an id's meta to the value
of its most recent successfully parsed sidecar, else keeps the old. -/
theorem entryMeta_foldl (fs : List ScanFile) (st : ScanResult) (id : JStr) :
    entryMeta (fs.foldl processFile st) id =
      (match lastOkParse id fs with
      | some j => some j
      | none => entryMeta st id) := by
  induction fs generalizing st with
  | nil => simp [lastOkParse]
  | cons f rest ih =>
    rw [List.foldl_cons, ih]
    cases hrest : lastOkParse id rest with
    | some j => simp [lastOkParse, hrest]
    | none =>
      simp only [lastOkParse, hrest]
      rw [entryMeta_processFile]
      by_cases hside : isSidecarFor id f = true
      · rw [hside]
        cases hc : f.content with
        | ok j => simp [hside, hc]
        | error inner => simp [hside, hc]
      · have hside2 : isSidecarFor id f = false := by simpa using hside
        rw [hside2]
        simp

/-- Folding the scan over a file list sets an id's metaError to the
outcome of its most recent sidecar, else keeps the old. -/
theorem entryMetaError_foldl (fs : List ScanFile) (st : ScanResult) (id : JStr) :
    entryMetaError (fs.foldl processFile st) id =
      (match lastSidecar id fs with
      | some g => sidecarErr g
      | none => entryMetaError st id) := by
  induction fs generalizing st with
  | nil => simp [lastSidecar]
  | cons f rest ih =>
    rw [List.foldl_cons, ih]
    cases hrest : lastSidecar id rest with
    | some g => simp [lastSidecar, hrest]
    | none =>
      simp only [lastSidecar, hrest]
      rw [entryMetaError_processFile]
      by_cases hside : isSidecarFor id f = true
      · rw [hside]
        simp [hside]
      · have hside2 : isSidecarFor id f = false := by simpa using hside
        rw [hside2]
        simp [hside2]

/-- Unfolding of the declarative error list over a cons. -/
theorem errorsSpec_cons (f : ScanFile) (rest : List ScanFile) :
    errorsSpec (f :: rest) =
      (if (extractIdFromName f.name).isSome && isMetaFile f.name then
        match f.content with
        | Except.ok _ => []
        | Except.error inner => [readErrMsg f.name inner]
      else []) ++ errorsSpec rest := by
  unfold errorsSpec
  rw [List.filterMap_cons]
  by_cases hcond : ((extractIdFromName f.name).isSome && isMetaFile f.name) = true
  · rw [if_pos hcond, if_pos hcond]
    cases hc : f.content with
    | ok j => simp [sidecarErr, hc]
    | error inner => simp [sidecarErr, hc]
  · rw [if_neg hcond, if_neg hcond]
    simp

/-- Folding the scan over a file list appends exactly the wrapped
messages of the failing sidecars, in order. -/
theorem errors_foldl (fs : List ScanFile) (st : ScanResult) :
    (fs.foldl processFile st).errors = st.errors ++ errorsSpec fs := by
  induction fs generalizing st with
  | nil => simp [errorsSpec]
  | cons f rest ih =>
    rw [List.foldl_cons, ih, errors_processFile, errorsSpec_cons, List.append_assoc]

/-- C8: in an archive scan, every sidecar file with an id is read and
parsed into that id's meta field, the most recently read successful
parse winning; a parse failure stores its wrapped message as the id's
metaError (the outcome of the most recent sidecar) and appends it to
the flat error list in traversal order; the scan never aborts and file
lists are built from media files alone, so a failing sidecar leaves
every file list untouched; files yielding no id are ignored
entirely. -/
theorem scanArchiveDirectory_sidecar_spec (fs : List ScanFile) (id : JStr) :
    (entryMeta (scanArchiveDirectory fs) id = lastOkParse id fs) ∧
    (entryMetaError (scanArchiveDirectory fs) id =
      (match lastSidecar id fs with
      | some g => sidecarErr g
      | none => none)) ∧
    ((scanArchiveDirectory fs).errors = errorsSpec fs) ∧
    (entryFiles (scanArchiveDirectory fs) id = mediaNamesFor id fs) ∧
    (scanArchiveDirectory (fs.filter (fun f => (extractIdFromName f.name).isSome)) =
      scanArchiveDirectory fs) := by
  refine ⟨?_, ?_, ?_, ?_, ?_⟩
  · rw [scanArchiveDirectory, entryMeta_foldl]
    cases h : lastOkParse id fs with
    | some j => rfl
    | none => rfl
  · rw [scanArchiveDirectory, entryMetaError_foldl]
    cases h : lastSidecar id fs with
    | some g => rfl
    | none => rfl
  · rw [scanArchiveDirectory, errors_foldl]
    rfl
  · rw [scanArchiveDirectory, entryFiles_foldl]
    rfl
  · have hgen : ∀ (gs : List ScanFile) (st : ScanResult),
        (gs.filter (fun f => (extractIdFromName f.name).isSome)).foldl processFile st =
        gs.foldl processFile st := by
      intro gs
      induction gs with
      | nil => intro st; rfl
      | cons f rest ih =>
        intro st
        cases hid : extractIdFromName f.name with
        | none =>
          rw [List.filter_cons_of_neg (by simp [hid])]
          rw [List.foldl_cons, processFile_noId st f hid]
          exact ih st
        | some fid =>
          rw [List.filter_cons_of_pos (by simp [hid])]
          rw [List.foldl_cons, List.foldl_cons]
          exact ih (processFile st f)
    exact hgen fs ⟨[], 0, 0, []⟩

/-- The missing test is emptiness of the id's recorded file list (an
absent entry counts as empty). -/
theorem isMissing_eq (res : ScanResult) (r : IndexRecord) :
    isMissing res r = (entryFiles res r.id).isEmpty := by
  unfold isMissing entryFiles
  cases lookupEntry res.byId r.id <;> rfl

/-- The offline-status test is the negation of the missing test. -/
theorem offlineStatus_eq (res : ScanResult) (r : IndexRecord) :
    offlineStatus res r = !(isMissing res r) := by
  unfold offlineStatus isMissing
  cases lookupEntry res.byId r.id <;> rfl

/-- C2: a record's offline status is present exactly when its id has at
least one archived media file; the missing set used for bulk opening is
exactly the set of index records whose id has zero archived media
files; offline status is the negation of the missing test; and an id
present in both the index and the archive (with a media file) is never
in the missing set. -/
theorem reconciliation_missing_spec (fs : List ScanFile) (idx : List IndexRecord)
    (r : IndexRecord) :
    (offlineStatus (scanArchiveDirectory fs) r = !(mediaNamesFor r.id fs).isEmpty) ∧
    (missingItems idx (scanArchiveDirectory fs) =
      idx.filter (fun x => (mediaNamesFor x.id fs).isEmpty)) ∧
    (offlineStatus (scanArchiveDirectory fs) r = !(isMissing (scanArchiveDirectory fs) r)) ∧
    (r ∈ idx → (mediaNamesFor r.id fs).isEmpty = false →
      r ∉ missingItems idx (scanArchiveDirectory fs)) := by
  have hfile : ∀ id2, entryFiles (scanArchiveDirectory fs) id2 = mediaNamesFor id2 fs := by
    intro id2
    rw [scanArchiveDirectory, entryFiles_foldl]
    rfl
  refine ⟨?_, ?_, offlineStatus_eq _ _, ?_⟩
  · rw [offlineStatus_eq, isMissing_eq, hfile]
  · unfold missingItems
    congr 1
    funext x
    rw [isMissing_eq, hfile]
  · intro hmem hne hcon
    have h2 := (List.mem_filter.mp hcon).2
    rw [isMissing_eq, hfile, hne] at h2
    cases h2

/-- Witness for the reconciliation claim: an id present in both a
one-record index and an archive holding its media file is not missing. -/
theorem reconciliation_missing_spec_witness :
    (⟨("gen_a1").toList, ("u").toList, none, none, Json.null⟩ : IndexRecord) ∉
      missingItems [⟨("gen_a1").toList, ("u").toList, none, none, Json.null⟩]
        (scanArchiveDirectory [⟨("gen_a1.mp4").toList, Except.ok Json.null⟩]) :=
  (reconciliation_missing_spec [⟨("gen_a1.mp4").toList, Except.ok Json.null⟩]
    [⟨("gen_a1").toList, ("u").toList, none, none, Json.null⟩]
    ⟨("gen_a1").toList, ("u").toList, none, none, Json.null⟩).2.2.2
    (List.mem_singleton.mpr rfl) rfl

/-- C1 (code bug): on the page path /g/gen_ab12cd with prompt cat and
extension mp4 the download flow produces exactly two artifact names,
but they are gen_gen_ab12cd--cat.mp4 and gen_gen_ab12cd.meta.json: the
gen_ literal in the template doubles the prefix already carried by the
id extracted from the URL, so the names differ from the claimed
gen_ab12cd--cat.mp4 and gen_ab12cd.meta.json; the repository's own
archive scanner then attributes the saved media file to the id gen_gen
rather than gen_ab12cd, so such downloads can never reconcile against
the index. -/
theorem runDownloadFlow_doubles_prefix :
    downloadNames (fun l => l) (("/g/gen_ab12cd").toList) (("cat").toList) (("mp4").toList)
      = some ((("gen_gen_ab12cd--cat.mp4").toList), (("gen_gen_ab12cd.meta.json").toList)) ∧
    getGenerationId (("/g/gen_ab12cd").toList) = some (("gen_ab12cd").toList) ∧
    ((("gen_gen_ab12cd--cat.mp4").toList : JStr) ≠ ("gen_ab12cd--cat.mp4").toList) ∧
    ((("gen_gen_ab12cd.meta.json").toList : JStr) ≠ ("gen_ab12cd.meta.json").toList) ∧
    extractIdFromName (("gen_gen_ab12cd--cat.mp4").toList) = some (("gen_gen").toList) := by
  exact ⟨by decide, by decide, by decide, by decide, by decide⟩

end SoraOffline
